/-
  Verification of the sokol-tools shader cross-compiler utility layer.

  Shallow embedding of the generator utility functions from src/unnamed/part_001
  (namespace shdc::util of util.cc) together with the data model from
  src/src/shdc/shdc.h.  C++ strings are embedded as lists of byte values
  (List Nat) where character-level operations matter, and as Lean String where
  only whole-string equality is used.  C++ int is embedded as Int with exact
  arithmetic; fallible operations (std::map::at, operator[] out of bounds)
  return Option.
-/
import Mathlib

/-! ## Uniform types (src/src/shdc/shdc.h uniform_t, extended by the integer
    variants that appear in the uniform_size switch of src/unnamed/part_001) -/

namespace Uniform

/-- The uniform type tags: the constructors named in the switch statements of
    uniform_size and uniform_type_str in src/unnamed/part_001. -/
inductive type_t where
  | INVALID
  | FLOAT
  | FLOAT2
  | FLOAT3
  | FLOAT4
  | INT
  | INT2
  | INT3
  | INT4
  | MAT4
deriving DecidableEq, Repr

end Uniform

/-- The switch of the array branch (array_size > 1) of uniform_size in
    src/unnamed/part_001 lines 48-56. -/
def uniform_size_array_switch (type : Uniform.type_t) (array_size : Int) : Int :=
  match type with
  | .FLOAT4 | .INT4 => 16 * array_size
  | .MAT4 => 64 * array_size
  | _ => 0

/-- The switch of the single-element branch of uniform_size in
    src/unnamed/part_001 lines 58-76. -/
def uniform_size_single_switch (type : Uniform.type_t) : Int :=
  match type with
  | .FLOAT | .INT => 4
  | .FLOAT2 | .INT2 => 8
  | .FLOAT3 | .INT3 => 12
  | .FLOAT4 | .INT4 => 16
  | .MAT4 => 64
  | _ => 0

/-- Embedding of int uniform_size(Uniform::type_t type, int array_size) from
    src/unnamed/part_001 lines 47-77; the two switch statements are the two
    helper functions above. -/
def uniform_size (type : Uniform.type_t) (array_size : Int) : Int :=
  if array_size > 1 then uniform_size_array_switch type array_size
  else uniform_size_single_switch type

/-! ## Target dialect tags -/

namespace Slang

/-- The target dialect enum Slang::Enum.  The defining header types/slang.h is
    not part of the sources; the constructor set is exactly the set of
    constants of that enum used by src/unnamed/part_001 (the switch in
    slang_file_extension, lines 156-174). -/
inductive Enum where
  | GLSL410
  | GLSL430
  | GLSL300ES
  | HLSL4
  | HLSL5
  | METAL_MACOS
  | METAL_IOS
  | METAL_SIM
  | WGSL
deriving DecidableEq, Repr

/-- Modelled from the spec: Slang::to_str (called by check_errors in
    src/unnamed/part_001) lives in the missing header types/slang.h.  The spec
    describes dialect tags as lowercase names of the dialect constants
    (section 6, target dialect tags); each enum constant is mapped to its
    lowercase spelling. -/
def to_str (c : Enum) : String :=
  match c with
  | .GLSL410 => "glsl410"
  | .GLSL430 => "glsl430"
  | .GLSL300ES => "glsl300es"
  | .HLSL4 => "hlsl4"
  | .HLSL5 => "hlsl5"
  | .METAL_MACOS => "metal_macos"
  | .METAL_IOS => "metal_ios"
  | .METAL_SIM => "metal_sim"
  | .WGSL => "wgsl"

end Slang

/-- Embedding of const char* slang_file_extension(Slang::Enum c, bool binary)
    from src/unnamed/part_001 lines 156-174. -/
def slang_file_extension (c : Slang.Enum) (binary : Bool) : String :=
  match c with
  | .GLSL410 | .GLSL430 | .GLSL300ES => ".glsl"
  | .HLSL4 | .HLSL5 => if binary then ".fxc" else ".hlsl"
  | .METAL_MACOS | .METAL_IOS | .METAL_SIM => if binary then ".metallib" else ".metal"
  | .WGSL => ".wgsl"

/-! ## roundup -/

/-- Embedding of int roundup(int val, int round_to) from src/unnamed/part_001
    lines 79-81: (val + (round_to - 1)) & ~(round_to - 1), read over exact
    two-complement integer arithmetic (Int.land and the Complement instance of
    Int realise the C bitwise operators on mathematical integers). -/
def roundup (val round_to : Int) : Int :=
  Int.land (val + (round_to - 1)) (~~~(round_to - 1))

/-! ### Helper lemmas for roundup -/

lemma int_not_ofNat (n : Nat) : ~~~((n : Int)) = Int.negSucc n := rfl

lemma int_land_ofNat_negSucc (m n : Nat) :
    Int.land ((m : Int)) (Int.negSucc n) = ((Nat.ldiff m n : Nat) : Int) := rfl

/-- Clearing the low k bits of a natural number rounds it down to a multiple
    of 2 ^ k. -/
lemma nat_ldiff_two_pow_sub_one (m k : Nat) :
    Nat.ldiff m (2 ^ k - 1) = 2 ^ k * (m / 2 ^ k) := by
  have h : 2 ^ k * (m / 2 ^ k) = (m >>> k) <<< k := by
    rw [Nat.shiftLeft_eq, Nat.shiftRight_eq_div_pow, Nat.mul_comm]
  rw [h]
  apply Nat.eq_of_testBit_eq
  intro i
  rw [Nat.testBit_ldiff, Nat.testBit_two_pow_sub_one, Nat.testBit_shiftLeft]
  by_cases hik : k ≤ i
  · have h2 : ¬ i < k := by omega
    have h3 : k + (i - k) = i := by omega
    simp [hik, h2, Nat.testBit_shiftRight, h3]
  · have h2 : i < k := by omega
    simp [hik, h2]

theorem c5_pre_roundup_eq (m k : Nat) :
    roundup ((m : Int)) ((2 : Int) ^ k) =
      ((2 ^ k * ((m + (2 ^ k - 1)) / 2 ^ k) : Nat) : Int) := by
  have hone : (1 : Nat) ≤ 2 ^ k := Nat.one_le_two_pow
  have hsub : (2 : Int) ^ k - 1 = ((2 ^ k - 1 : Nat) : Int) := by
    push_cast [hone]
    ring
  have hadd : (m : Int) + ((2 ^ k - 1 : Nat) : Int) = ((m + (2 ^ k - 1) : Nat) : Int) := by
    push_cast
    ring
  rw [roundup, hsub, hadd, int_not_ofNat, int_land_ofNat_negSucc,
    nat_ldiff_two_pow_sub_one]

/-- C5: For every integer v that is at least 0 and every n that is a power of
    two, roundup(v, n) is at least v and roundup(v, n) mod n = 0, computed over
    exact integer arithmetic. -/
theorem c5_roundup_pow2 (v n : Int) (hv : 0 ≤ v) (hn : ∃ k : Nat, n = 2 ^ k) :
    v ≤ roundup v n ∧ roundup v n % n = 0 := by
  obtain ⟨k, rfl⟩ := hn
  obtain ⟨m, rfl⟩ := Int.eq_ofNat_of_zero_le hv
  rw [c5_pre_roundup_eq]
  have hpos : 0 < 2 ^ k := Nat.pos_pow_of_pos k (by omega)
  constructor
  · have hdm := Nat.div_add_mod (m + (2 ^ k - 1)) (2 ^ k)
    have hmod : (m + (2 ^ k - 1)) % 2 ^ k < 2 ^ k := Nat.mod_lt _ hpos
    have h : m ≤ 2 ^ k * ((m + (2 ^ k - 1)) / 2 ^ k) := by omega
    exact_mod_cast h
  · have hpow : ((2 : Int) ^ k) = ((2 ^ k : Nat) : Int) := by
      push_cast
      ring
    rw [hpow]
    have h : (2 ^ k * ((m + (2 ^ k - 1)) / 2 ^ k)) % 2 ^ k = 0 :=
      Nat.mul_mod_right _ _
    exact_mod_cast congrArg (Nat.cast : Nat → Int) h

/-- Witness for C5 at v = 5, n = 4: roundup 5 4 = 8, which is at least 5 and
    divisible by 4. -/
theorem c5_roundup_pow2_witness :
    (0 : Int) ≤ 5 ∧ (∃ k : Nat, (4 : Int) = 2 ^ k) ∧
      ((5 : Int) ≤ roundup 5 4 ∧ roundup 5 4 % 4 = 0) :=
  ⟨by norm_num, ⟨2, by norm_num⟩, c5_roundup_pow2 5 4 (by norm_num) ⟨2, by norm_num⟩⟩

/-! ## Uniform size claims -/

/-- C3: For every array_count greater than 1, the array branch of uniform_size
    gives 16 * array_count for the vec4 kinds FLOAT4 and INT4 and
    64 * array_count for MAT4 (array strides 16 and 64), and gives 0 for every
    other element type, the encoding by which the code marks those element
    types as not legal for arrays. -/
theorem c3_uniform_array_sizes (n : Int) (h : 1 < n) :
    uniform_size .FLOAT4 n = 16 * n ∧
    uniform_size .INT4 n = 16 * n ∧
    uniform_size .MAT4 n = 64 * n ∧
    uniform_size .INVALID n = 0 ∧
    uniform_size .FLOAT n = 0 ∧
    uniform_size .FLOAT2 n = 0 ∧
    uniform_size .FLOAT3 n = 0 ∧
    uniform_size .INT n = 0 ∧
    uniform_size .INT2 n = 0 ∧
    uniform_size .INT3 n = 0 := by
  simp [uniform_size, uniform_size_array_switch, h]

/-- Witness for C3 at array_count = 2. -/
theorem c3_uniform_array_sizes_witness :
    (1 : Int) < 2 ∧
      (uniform_size .FLOAT4 2 = 16 * 2 ∧
       uniform_size .INT4 2 = 16 * 2 ∧
       uniform_size .MAT4 2 = 64 * 2 ∧
       uniform_size .INVALID 2 = 0 ∧
       uniform_size .FLOAT 2 = 0 ∧
       uniform_size .FLOAT2 2 = 0 ∧
       uniform_size .FLOAT3 2 = 0 ∧
       uniform_size .INT 2 = 0 ∧
       uniform_size .INT2 2 = 0 ∧
       uniform_size .INT3 2 = 0) :=
  ⟨by norm_num, c3_uniform_array_sizes 2 (by norm_num)⟩

/-- C4: For a single element (array_count = 1), uniform_size returns 4 for
    FLOAT, 8 for FLOAT2, 12 for FLOAT3, 16 for FLOAT4 and 64 for MAT4, and the
    same sizes for the integer variants INT, INT2, INT3 and INT4. -/
theorem c4_uniform_scalar_sizes :
    uniform_size .FLOAT 1 = 4 ∧
    uniform_size .FLOAT2 1 = 8 ∧
    uniform_size .FLOAT3 1 = 12 ∧
    uniform_size .FLOAT4 1 = 16 ∧
    uniform_size .MAT4 1 = 64 ∧
    uniform_size .INT 1 = 4 ∧
    uniform_size .INT2 1 = 8 ∧
    uniform_size .INT3 1 = 12 ∧
    uniform_size .INT4 1 = 16 := by
  norm_num [uniform_size, uniform_size_single_switch]

/-- C10: uniform_size is a total function that never signals an error: it
    returns 0 for the INVALID type at every array_count, and returns 0 for
    every array_count greater than 1 combined with an element type outside
    the permitted set FLOAT4, INT4, MAT4. -/
theorem c10_uniform_size_total :
    (∀ n : Int, uniform_size .INVALID n = 0) ∧
    (∀ n : Int, 1 < n →
      uniform_size .FLOAT n = 0 ∧
      uniform_size .FLOAT2 n = 0 ∧
      uniform_size .FLOAT3 n = 0 ∧
      uniform_size .INT n = 0 ∧
      uniform_size .INT2 n = 0 ∧
      uniform_size .INT3 n = 0) := by
  constructor
  · intro n
    by_cases h : n > 1 <;> simp [uniform_size, uniform_size_array_switch, uniform_size_single_switch, h]
  · intro n h
    simp [uniform_size, uniform_size_array_switch, h]

/-- Witness for C10 at array_count = 3 (and at the INVALID type). -/
theorem c10_uniform_size_total_witness :
    uniform_size .INVALID 3 = 0 ∧
      ((1 : Int) < 3 ∧
        (uniform_size .FLOAT 3 = 0 ∧
         uniform_size .FLOAT2 3 = 0 ∧
         uniform_size .FLOAT3 3 = 0 ∧
         uniform_size .INT 3 = 0 ∧
         uniform_size .INT2 3 = 0 ∧
         uniform_size .INT3 3 = 0)) :=
  ⟨c10_uniform_size_total.1 3, by norm_num, c10_uniform_size_total.2 3 (by norm_num)⟩

/-! ## Dialect file-extension claims -/

/-- C7 counterexample: the claim names glsl330 and glsl100 as the GLSL
    dialects mapped by slang_file_extension, but no constant of the Slang enum
    of the code carries either tag: the GLSL dialects of the code are glsl410,
    glsl430 and glsl300es.  Stated as the negation of the claim at each of the
    nine dialect constants. -/
theorem c7_counterexample :
    Slang.to_str .GLSL410 ≠ "glsl330" ∧ Slang.to_str .GLSL410 ≠ "glsl100" ∧
    Slang.to_str .GLSL430 ≠ "glsl330" ∧ Slang.to_str .GLSL430 ≠ "glsl100" ∧
    Slang.to_str .GLSL300ES ≠ "glsl330" ∧ Slang.to_str .GLSL300ES ≠ "glsl100" ∧
    Slang.to_str .HLSL4 ≠ "glsl330" ∧ Slang.to_str .HLSL4 ≠ "glsl100" ∧
    Slang.to_str .HLSL5 ≠ "glsl330" ∧ Slang.to_str .HLSL5 ≠ "glsl100" ∧
    Slang.to_str .METAL_MACOS ≠ "glsl330" ∧ Slang.to_str .METAL_MACOS ≠ "glsl100" ∧
    Slang.to_str .METAL_IOS ≠ "glsl330" ∧ Slang.to_str .METAL_IOS ≠ "glsl100" ∧
    Slang.to_str .METAL_SIM ≠ "glsl330" ∧ Slang.to_str .METAL_SIM ≠ "glsl100" ∧
    Slang.to_str .WGSL ≠ "glsl330" ∧ Slang.to_str .WGSL ≠ "glsl100" := by
  decide

/-- C7 as amended: slang_file_extension maps the GLSL dialects of the code
    (glsl410, glsl430, glsl300es) to .glsl regardless of the binary flag,
    hlsl4 and hlsl5 to .hlsl and, when the binary flag is set, .fxc, the Metal
    dialects metal_macos, metal_ios and metal_sim to .metal and, when the
    binary flag is set, .metallib, and wgsl to .wgsl. -/
theorem c7_slang_file_extension_table :
    (∀ b : Bool, slang_file_extension .GLSL410 b = ".glsl") ∧
    (∀ b : Bool, slang_file_extension .GLSL430 b = ".glsl") ∧
    (∀ b : Bool, slang_file_extension .GLSL300ES b = ".glsl") ∧
    slang_file_extension .HLSL4 false = ".hlsl" ∧
    slang_file_extension .HLSL4 true = ".fxc" ∧
    slang_file_extension .HLSL5 false = ".hlsl" ∧
    slang_file_extension .HLSL5 true = ".fxc" ∧
    slang_file_extension .METAL_MACOS false = ".metal" ∧
    slang_file_extension .METAL_MACOS true = ".metallib" ∧
    slang_file_extension .METAL_IOS false = ".metal" ∧
    slang_file_extension .METAL_IOS true = ".metallib" ∧
    slang_file_extension .METAL_SIM false = ".metal" ∧
    slang_file_extension .METAL_SIM true = ".metallib" ∧
    (∀ b : Bool, slang_file_extension .WGSL b = ".wgsl") := by
  decide

/-! ## Byte-string model for the case transforms

    C++ std::string values are embedded as lists of byte values.  The pystring
    helpers used by src/unnamed/part_001 (split with separator "_", capitalize,
    join with separator "") are modelled on List Nat; ::toupper and ::tolower
    are modelled on ASCII bytes as in the default C locale. -/

/-- Model of ::toupper on an ASCII byte. -/
def toupper (c : Nat) : Nat := if 97 ≤ c ∧ c ≤ 122 then c - 32 else c

/-- Model of ::tolower on an ASCII byte. -/
def tolower (c : Nat) : Nat := if 65 ≤ c ∧ c ≤ 90 then c + 32 else c

/-- Model of pystring::split with a one-byte separator: non-overlapping
    left-to-right splitting; the empty string yields one empty piece and a
    separator-only string yields empty pieces on both sides, as in Python. -/
def splitPrepend (c : Nat) : List (List Nat) → List (List Nat)
  | [] => [[c]]
  | p :: ps => (c :: p) :: ps

def splitOnByte (sep : Nat) : List Nat → List (List Nat)
  | [] => [[]]
  | c :: r =>
    if c = sep then [] :: splitOnByte sep r
    else splitPrepend c (splitOnByte sep r)

/-- Model of pystring::capitalize: the first character is uppercased. -/
def pystring_capitalize : List Nat → List Nat
  | [] => []
  | c :: r => toupper c :: r

/-- Embedding of std::string to_pascal_case(const std::string& str) from
    src/unnamed/part_001 lines 116-124: split on underscore, capitalize each
    part, join with the empty separator. -/
def to_pascal_case (s : List Nat) : List Nat :=
  ((splitOnByte 95 s).map pystring_capitalize).flatten

/-- Embedding of std::string to_camel_case(const std::string& str) from
    src/unnamed/part_001 lines 136-140: the pascal-case result with the byte
    at index 0 replaced by its lowercase form.  The write res[0] has no bounds
    guard in the source; when the pascal-case result is empty the access is
    out of bounds (undefined behaviour), modelled as none. -/
def to_camel_case (s : List Nat) : Option (List Nat) :=
  match to_pascal_case s with
  | [] => none
  | c :: r => some (tolower c :: r)

/-- The spec-side operation "with its first character uppercased". -/
def upper_first : List Nat → List Nat
  | [] => []
  | c :: r => toupper c :: r

/-- The spec-side operation "with its first character lowercased". -/
def lower_first : List Nat → List Nat
  | [] => []
  | c :: r => tolower c :: r

/-! ### Helper lemmas for the case transforms -/

lemma splitPrepend_ne_nil (c : Nat) (l : List (List Nat)) : splitPrepend c l ≠ [] := by
  cases l <;> simp [splitPrepend]

lemma splitOnByte_ne_nil (sep : Nat) (s : List Nat) : splitOnByte sep s ≠ [] := by
  cases s with
  | nil => simp [splitOnByte]
  | cons c r =>
    rw [splitOnByte]
    by_cases h : c = sep
    · simp [h]
    · simp only [h, if_false]
      exact splitPrepend_ne_nil c _

lemma toupper_tolower_toupper (d : Nat) :
    toupper (tolower (toupper d)) = toupper d := by
  unfold toupper tolower
  split_ifs <;> omega

/-- The head of a non-empty joined list of capitalized parts is an uppercased
    byte. -/
lemma join_cap_head (parts : List (List Nat)) (c : Nat) (r : List Nat)
    (h : (parts.map pystring_capitalize).flatten = c :: r) : ∃ d, c = toupper d := by
  induction parts generalizing c r with
  | nil => simp at h
  | cons p ps ih =>
    cases p with
    | nil =>
      rw [List.map_cons, List.flatten_cons] at h
      simp only [pystring_capitalize, List.nil_append] at h
      exact ih c r h
    | cons d t =>
      rw [List.map_cons, List.flatten_cons] at h
      simp only [pystring_capitalize, List.cons_append, List.cons.injEq] at h
      exact ⟨d, h.1.symm⟩

/-- The pascal-case result is empty exactly when every input byte is an
    underscore (byte 95). -/
lemma pascal_nil_iff (s : List Nat) :
    to_pascal_case s = [] ↔ s.all (fun c => c == 95) = true := by
  induction s with
  | nil => simp [to_pascal_case, splitOnByte, pystring_capitalize]
  | cons c r ih =>
    by_cases h : c = 95
    · subst h
      rw [to_pascal_case] at ih ⊢
      rw [splitOnByte]
      simp only [if_pos rfl, List.map_cons, List.flatten_cons, List.all_cons]
      simpa [pystring_capitalize] using ih
    · rw [to_pascal_case, splitOnByte]
      simp only [h, if_false]
      obtain ⟨p, ps, hsplit⟩ : ∃ p ps, splitOnByte 95 r = p :: ps := by
        cases hs : splitOnByte 95 r with
        | nil => exact absurd hs (splitOnByte_ne_nil 95 r)
        | cons p ps => exact ⟨p, ps, rfl⟩
      rw [hsplit]
      simp [splitPrepend, pystring_capitalize, List.all_cons, h]

/-- C8 counterexample: for the empty string the claim fails, because
    to_camel_case writes through index 0 of an empty pascal-case string (out
    of bounds, modelled as none), so no camel-case value exists whose first
    character can be uppercased to give the pascal-case result. -/
theorem c8_counterexample :
    ¬ ∃ y, to_camel_case [] = some y ∧ upper_first y = to_pascal_case [] := by
  rintro ⟨y, hy, h2⟩
  rw [show to_camel_case [] = none from rfl] at hy
  exact Option.noConfusion hy

/-- C8 as amended: for every byte string whose pascal-case form is non-empty
    (every string with at least one non-underscore byte), to_camel_case is
    defined and to_pascal_case of the input equals to_camel_case of the input
    with its first character uppercased. -/
theorem c8_pascal_camel (s : List Nat) (h : to_pascal_case s ≠ []) :
    ∃ y, to_camel_case s = some y ∧ upper_first y = to_pascal_case s := by
  cases hp : to_pascal_case s with
  | nil => exact absurd hp h
  | cons c r =>
    obtain ⟨d, hd⟩ := join_cap_head (splitOnByte 95 s) c r (by rw [← to_pascal_case, hp])
    have hc : toupper (tolower c) = c := by rw [hd, toupper_tolower_toupper]
    refine ⟨tolower c :: r, ?_, ?_⟩
    · simp [to_camel_case, hp]
    · simp [upper_first, hc, hp]

/-- Witness for C8 at the byte string "ab_cd". -/
theorem c8_pascal_camel_witness :
    to_pascal_case [97, 98, 95, 99, 100] ≠ [] ∧
      ∃ y, to_camel_case [97, 98, 95, 99, 100] = some y ∧
        upper_first y = to_pascal_case [97, 98, 95, 99, 100] :=
  ⟨by decide, c8_pascal_camel [97, 98, 95, 99, 100] (by decide)⟩

/-- C9 counterexample: the single-underscore string is non-empty, yet its
    pascal-case form is empty, so the unguarded index-0 write of to_camel_case
    is out of bounds (the none branch is reached on a non-empty input). -/
theorem c9_counterexample :
    to_camel_case [95] = none ∧ [95] ≠ ([] : List Nat) := by
  constructor
  · rfl
  · simp

/-- C9 as amended: the index-0 access of to_camel_case is out of bounds (none)
    exactly when the input consists solely of underscore bytes, the empty
    string included; on every other input the access is in bounds and the
    result is to_pascal_case of the input with its first character
    lowercased. -/
theorem c9_camel_guard (s : List Nat) :
    (to_camel_case s = none ↔ s.all (fun c => c == 95) = true) ∧
    (s.all (fun c => c == 95) = false →
      to_camel_case s = some (lower_first (to_pascal_case s))) := by
  have hp := pascal_nil_iff s
  have hnone : to_camel_case s = none ↔ to_pascal_case s = [] := by
    rw [to_camel_case]
    cases hpc : to_pascal_case s <;> simp
  constructor
  · rw [hnone, hp]
  · intro hall
    cases hpc : to_pascal_case s with
    | nil => rw [hp.mp hpc] at hall; exact Bool.noConfusion hall
    | cons c r => rw [to_camel_case, hpc, lower_first]

/-! ## Data model for check_errors

    From src/src/shdc/shdc.h: snippet_t, program_t, error_t (here ErrMsg, the
    name used by src/unnamed/part_001) and the spirv-cross result types.
    Names and string fields not consulted by check_errors are kept as Lean
    String; the std::map members are association lists in iteration order. -/

/-- The snippet kinds of snippet_t in src/src/shdc/shdc.h. -/
inductive SnippetType where
  | INVALID
  | BLOCK
  | VS
  | FS
deriving DecidableEq, Repr

/-- snippet_t of src/src/shdc/shdc.h: kind, name and the resolved zero-based
    line indices. -/
structure Snippet where
  type : SnippetType := .INVALID
  name : String := ""
  lines : List Int := []
deriving DecidableEq, Repr

/-- program_t of src/src/shdc/shdc.h: name, vertex- and fragment-snippet
    names, and the zero-based line index of the @program declaration. -/
structure Program where
  name : String := ""
  vs_name : String := ""
  fs_name : String := ""
  line_index : Int := -1
deriving DecidableEq, Repr

/-- The diagnostic value (error_t of src/src/shdc/shdc.h, named ErrMsg by the
    code in src/unnamed/part_001): file, message, zero-based line index and
    the valid flag; a default-constructed value (valid = false) means no
    error. -/
structure ErrMsg where
  file : String := ""
  msg : String := ""
  line_index : Int := -1
  valid : Bool := false
deriving DecidableEq, Repr

/-- The translated-source record (spirvcross_source_t of src/src/shdc/shdc.h)
    restricted to the fields check_errors consults; the back-link into
    Input.snippets. -/
structure SpirvcrossSource where
  valid : Bool := false
  snippet_index : Int := -1
  source_code : String := ""
deriving DecidableEq, Repr

/-- The per-run spirv-cross result consulted by check_errors: the ordered
    sequence of translated sources. -/
structure Spirvcross where
  sources : List SpirvcrossSource := []
deriving DecidableEq, Repr

/-- The fields of the pre-parsed input (input_t of src/src/shdc/shdc.h) that
    check_errors consults: path, snippets, the name-to-index snippet map and
    the programs in map-iteration order. -/
structure Input where
  path : String := ""
  snippets : List Snippet := []
  snippet_map : List (String × Int) := []
  programs : List Program := []
deriving DecidableEq, Repr

/-- std::map::at on an association list: some value when the key is present,
    none for the out_of_range exception. -/
def mapAt (m : List (String × Int)) (k : String) : Option Int :=
  (m.find? (fun kv => kv.1 == k)).map (fun kv => kv.2)

/-- std::vector indexing with an int index: none models out-of-range access
    (undefined behaviour in the C++). -/
def vecGet {α : Type} (l : List α) (i : Int) : Option α :=
  if i < 0 then none else l.get? i.toNat

/-- Modelled from the spec: Spirvcross::find_source_by_snippet_index, whose
    definition is not among the sources (only its callers in
    src/unnamed/part_001 are).  Per the data model of the spec, each
    CrossSource carries a back-linking snippet_index and the absence of a
    record is the failure signal, so the function returns the index of the
    first source whose snippet_index matches, and -1 when there is none. -/
def find_source_by_snippet_index (sc : Spirvcross) (snippet_index : Int) : Int :=
  match sc.sources.findIdx? (fun s => s.snippet_index == snippet_index) with
  | some i => (i : Int)
  | none => -1

/-- Modelled from the spec: Input::error (input_t of shdc.h holds the path;
    the diagnostic constructor error_t(file, line, msg) of shdc.h sets
    valid = true). -/
def Input.error (inp : Input) (line_index : Int) (msg : String) : ErrMsg :=
  { file := inp.path, msg := msg, line_index := line_index, valid := true }

/-- The message of the missing-vertex-shader diagnostic of check_errors in
    src/unnamed/part_001 (fmt::format with the three arguments spliced in). -/
def vs_missing_msg (slang : Slang.Enum) (p : Program) : String :=
  "no generated '" ++ Slang.to_str slang ++ "' source for vertex shader '" ++
    p.vs_name ++ "' in program '" ++ p.name ++ "'"

/-- The message of the missing-fragment-shader diagnostic of check_errors in
    src/unnamed/part_001. -/
def fs_missing_msg (slang : Slang.Enum) (p : Program) : String :=
  "no generated '" ++ Slang.to_str slang ++ "' source for fragment shader '" ++
    p.fs_name ++ "' in program '" ++ p.name ++ "'"

/-- The return value of the missing-vertex-shader branch of check_errors:
    inp.error(inp.snippets[vs_snippet_index].lines[0], ...), with none for an
    out-of-bounds access. -/
def vs_error_at (inp : Input) (slang : Slang.Enum) (prog : Program)
    (vs_snippet_index : Int) : Option ErrMsg :=
  match vecGet inp.snippets vs_snippet_index with
  | some sn =>
    match vecGet sn.lines 0 with
    | some l0 => some (inp.error l0 (vs_missing_msg slang prog))
    | none => none
  | none => none

/-- The return value of the missing-fragment-shader branch of check_errors.
    As in the source, the line is taken from the snippet at vs_snippet_index
    (not the fragment snippet). -/
def fs_error_at (inp : Input) (slang : Slang.Enum) (prog : Program)
    (vs_snippet_index : Int) : Option ErrMsg :=
  match vecGet inp.snippets vs_snippet_index with
  | some sn =>
    match vecGet sn.lines 0 with
    | some l0 => some (inp.error l0 (fs_missing_msg slang prog))
    | none => none
  | none => none

/-- One iteration of the loop of check_errors from src/unnamed/part_001 lines
    15-31: resolve both snippet names (none models the std::out_of_range of
    snippet_map.at), look up both translated sources, return the diagnostic of
    the first missing side, and otherwise continue with k. -/
def check_errors_body (inp : Input) (spirvcross : Spirvcross) (slang : Slang.Enum)
    (prog : Program) (k : Option ErrMsg) : Option ErrMsg :=
  match mapAt inp.snippet_map prog.vs_name, mapAt inp.snippet_map prog.fs_name with
  | some vs_snippet_index, some fs_snippet_index =>
    if find_source_by_snippet_index spirvcross vs_snippet_index < 0 then
      vs_error_at inp slang prog vs_snippet_index
    else if find_source_by_snippet_index spirvcross fs_snippet_index < 0 then
      fs_error_at inp slang prog vs_snippet_index
    else k
  | _, _ => none

/-- The loop of check_errors over the programs in map-iteration order; an
    exhausted loop reaches the final return ErrMsg() (all ok). -/
def check_errors_loop (inp : Input) (spirvcross : Spirvcross) (slang : Slang.Enum) :
    List Program → Option ErrMsg
  | [] => some {}
  | prog :: rest =>
    check_errors_body inp spirvcross slang prog
      (check_errors_loop inp spirvcross slang rest)

/-- Embedding of ErrMsg check_errors(const Input&, const Spirvcross&,
    Slang::Enum) from src/unnamed/part_001 lines 11-34. -/
def check_errors (inp : Input) (spirvcross : Spirvcross) (slang : Slang.Enum) :
    Option ErrMsg :=
  check_errors_loop inp spirvcross slang inp.programs

/-! ### Analysis predicates for check_errors -/

/-- The vertex side of a program has no translated source: the snippet name
    resolves and no source in the Spirvcross result carries its index. -/
def vs_missing (inp : Input) (sc : Spirvcross) (p : Program) : Bool :=
  match mapAt inp.snippet_map p.vs_name with
  | some vi => decide (find_source_by_snippet_index sc vi < 0)
  | none => false

/-- The fragment side of a program has no translated source. -/
def fs_missing (inp : Input) (sc : Spirvcross) (p : Program) : Bool :=
  match mapAt inp.snippet_map p.fs_name with
  | some fi => decide (find_source_by_snippet_index sc fi < 0)
  | none => false

/-- Some side of the program has no translated source. -/
def prog_side_missing (inp : Input) (sc : Spirvcross) (p : Program) : Bool :=
  vs_missing inp sc p || fs_missing inp sc p

/-- The well-formedness of one program that the spec guarantees for parsed
    inputs: both snippet names resolve in snippet_map, the vertex snippet
    index is in range, and the vertex snippet has at least one line. -/
def wf_prog (inp : Input) (p : Program) : Bool :=
  match mapAt inp.snippet_map p.vs_name, mapAt inp.snippet_map p.fs_name with
  | some vi, some _ =>
    match vecGet inp.snippets vi with
    | some sn => !sn.lines.isEmpty
    | none => false
  | _, _ => false

/-- Every program of the input is well formed. -/
def wf_input (inp : Input) : Bool := inp.programs.all (wf_prog inp)

/-- The first resolved line of the vertex snippet of a program
    (inp.snippets[snippet_map.at(vs_name)].lines[0]). -/
def vs_first_line (inp : Input) (p : Program) : Option Int :=
  match mapAt inp.snippet_map p.vs_name with
  | some vi =>
    match vecGet inp.snippets vi with
    | some sn => vecGet sn.lines 0
    | none => none
  | none => none

/-! ### Loop lemmas for check_errors -/

lemma check_errors_loop_ok (inp : Input) (sc : Spirvcross) (slang : Slang.Enum) :
    ∀ l : List Program, (∀ p ∈ l, wf_prog inp p = true) →
      (∀ p ∈ l, prog_side_missing inp sc p = false) →
      check_errors_loop inp sc slang l = some {} := by
  intro l
  induction l with
  | nil => intro _ _; rfl
  | cons p rest ih =>
    intro hwf hmiss
    have hw := hwf p (List.mem_cons_self p rest)
    have hm := hmiss p (List.mem_cons_self p rest)
    cases hvs : mapAt inp.snippet_map p.vs_name with
    | none => simp [wf_prog, hvs] at hw
    | some vi =>
      cases hfs : mapAt inp.snippet_map p.fs_name with
      | none => simp [wf_prog, hvs, hfs] at hw
      | some fi =>
        have hv : ¬ find_source_by_snippet_index sc vi < 0 := by
          simp [prog_side_missing, vs_missing, hvs] at hm
          omega
        have hf : ¬ find_source_by_snippet_index sc fi < 0 := by
          simp [prog_side_missing, fs_missing, hfs] at hm
          omega
        rw [check_errors_loop, check_errors_body, hvs, hfs]
        simp only [hv, hf, if_false]
        exact ih (fun q hq => hwf q (List.mem_cons_of_mem p hq))
          (fun q hq => hmiss q (List.mem_cons_of_mem p hq))

lemma check_errors_loop_err (inp : Input) (sc : Spirvcross) (slang : Slang.Enum) :
    ∀ l : List Program, (∀ p ∈ l, wf_prog inp p = true) →
      (∃ p ∈ l, prog_side_missing inp sc p = true) →
      ∃ e p, check_errors_loop inp sc slang l = some e ∧ e.valid = true ∧
        p ∈ l ∧ prog_side_missing inp sc p = true ∧
        vs_first_line inp p = some e.line_index ∧
        ((vs_missing inp sc p = true ∧ e.msg = vs_missing_msg slang p) ∨
         (vs_missing inp sc p = false ∧ fs_missing inp sc p = true ∧
           e.msg = fs_missing_msg slang p)) := by
  intro l
  induction l with
  | nil => intro _ hex; simp at hex
  | cons p rest ih =>
    intro hwf hex
    have hw := hwf p (List.mem_cons_self p rest)
    cases hvs : mapAt inp.snippet_map p.vs_name with
    | none => simp [wf_prog, hvs] at hw
    | some vi =>
      cases hfs : mapAt inp.snippet_map p.fs_name with
      | none => simp [wf_prog, hvs, hfs] at hw
      | some fi =>
        cases hsn : vecGet inp.snippets vi with
        | none => simp [wf_prog, hvs, hfs, hsn] at hw
        | some sn =>
          cases hl : sn.lines with
          | nil => simp [wf_prog, hvs, hfs, hsn, hl] at hw
          | cons x xs =>
            have hline0 : vecGet sn.lines 0 = some x := by
              simp [vecGet, hl]
            by_cases hp : prog_side_missing inp sc p = true
            · by_cases hv : vs_missing inp sc p = true
              · have hvlt : find_source_by_snippet_index sc vi < 0 := by
                  simp [vs_missing, hvs] at hv
                  exact hv
                refine ⟨inp.error x (vs_missing_msg slang p), p, ?_, rfl,
                  List.mem_cons_self p rest, hp, ?_, Or.inl ⟨hv, rfl⟩⟩
                · rw [check_errors_loop, check_errors_body, hvs, hfs]
                  simp [hvlt, vs_error_at, hsn, hline0]
                · simp [vs_first_line, hvs, hsn, hline0, Input.error]
              · have hvge : ¬ find_source_by_snippet_index sc vi < 0 := by
                  simp [vs_missing, hvs] at hv
                  omega
                have hf : fs_missing inp sc p = true := by
                  simp [prog_side_missing, hv] at hp
                  exact hp
                have hflt : find_source_by_snippet_index sc fi < 0 := by
                  simp [fs_missing, hfs] at hf
                  exact hf
                refine ⟨inp.error x (fs_missing_msg slang p), p, ?_, rfl,
                  List.mem_cons_self p rest, hp, ?_,
                  Or.inr ⟨by simp [hv], hf, rfl⟩⟩
                · rw [check_errors_loop, check_errors_body, hvs, hfs]
                  simp [hvge, hflt, fs_error_at, hsn, hline0]
                · simp [vs_first_line, hvs, hsn, hline0, Input.error]
            · have hv : ¬ find_source_by_snippet_index sc vi < 0 := by
                simp [prog_side_missing, vs_missing, hvs] at hp
                omega
              have hf : ¬ find_source_by_snippet_index sc fi < 0 := by
                simp [prog_side_missing, fs_missing, hvs, hfs] at hp
                omega
              have hex2 : ∃ q ∈ rest, prog_side_missing inp sc q = true := by
                obtain ⟨q, hq, hqm⟩ := hex
                rcases List.mem_cons.mp hq with hqp | hqrest
                · rw [hqp] at hqm
                  exact absurd hqm hp
                · exact ⟨q, hqrest, hqm⟩
              obtain ⟨e, q, hloop, hval, hmem, hqm, hfl, hmsg⟩ :=
                ih (fun q hq => hwf q (List.mem_cons_of_mem p hq)) hex2
              refine ⟨e, q, ?_, hval, List.mem_cons_of_mem p hmem, hqm, hfl, hmsg⟩
              rw [check_errors_loop, check_errors_body, hvs, hfs]
              simp only [hv, hf, if_false]
              exact hloop

/-! ### Concrete example input for the check_errors claims -/

/-- A vertex snippet whose first resolved line is 10. -/
def exSnippetVS : Snippet := { type := .VS, name := "vsnip", lines := [10, 11] }

/-- A fragment snippet whose first resolved line is 20. -/
def exSnippetFS : Snippet := { type := .FS, name := "fsnip", lines := [20] }

/-- A program declared at line 55 pairing the two snippets. -/
def exProgram : Program :=
  { name := "prog1", vs_name := "vsnip", fs_name := "fsnip", line_index := 55 }

/-- An input holding the two snippets and the one program (snippet_map in
    std::map key order). -/
def exInput : Input :=
  { path := "shader.glsl",
    snippets := [exSnippetVS, exSnippetFS],
    snippet_map := [("fsnip", 1), ("vsnip", 0)],
    programs := [exProgram] }

/-- A spirv-cross result with no translated sources at all: both sides of the
    program are missing. -/
def exSpirvcrossEmpty : Spirvcross := { sources := [] }

/-- C1 counterexample: on exInput with no translated sources, check_errors
    returns a diagnostic at line 10 (the first resolved line of the vertex
    snippet), not at line 55 (the line_index / decl_line of the @program
    declaration of the only program), refuting the claim that the diagnostic
    is pinned to the declaration line of the program. -/
theorem c1_counterexample :
    check_errors exInput exSpirvcrossEmpty Slang.Enum.GLSL410 =
      some { file := "shader.glsl",
             msg := vs_missing_msg Slang.Enum.GLSL410 exProgram,
             line_index := 10, valid := true } ∧
    exInput.programs = [exProgram] ∧
    exProgram.line_index = 55 ∧
    (10 : Int) ≠ 55 := by
  refine ⟨?_, rfl, rfl, by norm_num⟩
  rfl

/-- C1 as amended: for every Input whose programs are well formed and every
    Spirvcross result and dialect, when some program has a side with no
    translated source, check_errors returns a valid diagnostic pinned to the
    first resolved line of the vertex snippet of a failing program (for a
    missing fragment side as well), not to the declaration line of the
    program. -/
theorem c1_missing_source_error_line (inp : Input) (sc : Spirvcross)
    (slang : Slang.Enum) (hwf : wf_input inp = true)
    (hex : ∃ p ∈ inp.programs, prog_side_missing inp sc p = true) :
    ∃ e p, check_errors inp sc slang = some e ∧ e.valid = true ∧
      p ∈ inp.programs ∧ prog_side_missing inp sc p = true ∧
      vs_first_line inp p = some e.line_index := by
  have hwf2 : ∀ p ∈ inp.programs, wf_prog inp p = true := by
    intro p hp
    exact List.all_eq_true.mp hwf p hp
  obtain ⟨e, p, hloop, hval, hmem, hpm, hfl, _⟩ :=
    check_errors_loop_err inp sc slang inp.programs hwf2 hex
  exact ⟨e, p, hloop, hval, hmem, hpm, hfl⟩

/-- Witness for C1 at exInput with an empty spirv-cross result. -/
theorem c1_missing_source_error_line_witness :
    wf_input exInput = true ∧
      (∃ p ∈ exInput.programs,
        prog_side_missing exInput exSpirvcrossEmpty p = true) ∧
      (∃ e p, check_errors exInput exSpirvcrossEmpty Slang.Enum.GLSL410 = some e ∧
        e.valid = true ∧ p ∈ exInput.programs ∧
        prog_side_missing exInput exSpirvcrossEmpty p = true ∧
        vs_first_line exInput p = some e.line_index) :=
  ⟨by decide, by decide,
    c1_missing_source_error_line exInput exSpirvcrossEmpty Slang.Enum.GLSL410
      (by decide) (by decide)⟩

/-- C2: for every well-formed Input, Spirvcross result and dialect,
    check_errors returns the non-valid (OK) diagnostic exactly when every
    program has translated sources for both of its sides, and when some side
    is missing it returns a valid diagnostic whose message is the
    missing-shader message naming the dialect and the missing shader. -/
theorem c2_check_errors_ok_iff (inp : Input) (sc : Spirvcross)
    (slang : Slang.Enum) (hwf : wf_input inp = true) :
    ((∃ e, check_errors inp sc slang = some e ∧ e.valid = false) ↔
      ∀ p ∈ inp.programs, prog_side_missing inp sc p = false) ∧
    ((∃ p ∈ inp.programs, prog_side_missing inp sc p = true) →
      ∃ e p, check_errors inp sc slang = some e ∧ e.valid = true ∧
        p ∈ inp.programs ∧
        ((vs_missing inp sc p = true ∧ e.msg = vs_missing_msg slang p) ∨
         (fs_missing inp sc p = true ∧ e.msg = fs_missing_msg slang p))) := by
  have hwf2 : ∀ p ∈ inp.programs, wf_prog inp p = true := by
    intro p hp
    exact List.all_eq_true.mp hwf p hp
  constructor
  · constructor
    · rintro ⟨e, he, hval⟩ p hp
      by_contra hmiss
      rw [Bool.not_eq_false] at hmiss
      obtain ⟨e2, q, hloop, hval2, _, _, _, _⟩ :=
        check_errors_loop_err inp sc slang inp.programs hwf2 ⟨p, hp, hmiss⟩
      rw [check_errors] at he
      rw [he] at hloop
      have := Option.some.inj hloop
      rw [← this] at hval2
      rw [hval] at hval2
      exact Bool.noConfusion hval2
    · intro hall
      refine ⟨{}, ?_, rfl⟩
      rw [check_errors]
      exact check_errors_loop_ok inp sc slang inp.programs hwf2 hall
  · intro hex
    obtain ⟨e, p, hloop, hval, hmem, _, _, hmsg⟩ :=
      check_errors_loop_err inp sc slang inp.programs hwf2 hex
    refine ⟨e, p, hloop, hval, hmem, ?_⟩
    rcases hmsg with ⟨h1, h2⟩ | ⟨_, h1, h2⟩
    · exact Or.inl ⟨h1, h2⟩
    · exact Or.inr ⟨h1, h2⟩

/-- Witness for C2 at exInput with an empty spirv-cross result and the hlsl5
    dialect. -/
theorem c2_check_errors_ok_iff_witness :
    wf_input exInput = true ∧
      (((∃ e, check_errors exInput exSpirvcrossEmpty Slang.Enum.HLSL5 = some e ∧
            e.valid = false) ↔
          ∀ p ∈ exInput.programs,
            prog_side_missing exInput exSpirvcrossEmpty p = false) ∧
        ((∃ p ∈ exInput.programs,
            prog_side_missing exInput exSpirvcrossEmpty p = true) →
          ∃ e p, check_errors exInput exSpirvcrossEmpty Slang.Enum.HLSL5 = some e ∧
            e.valid = true ∧ p ∈ exInput.programs ∧
            ((vs_missing exInput exSpirvcrossEmpty p = true ∧
               e.msg = vs_missing_msg Slang.Enum.HLSL5 p) ∨
             (fs_missing exInput exSpirvcrossEmpty p = true ∧
               e.msg = fs_missing_msg Slang.Enum.HLSL5 p)))) :=
  ⟨by decide,
    c2_check_errors_ok_iff exInput exSpirvcrossEmpty Slang.Enum.HLSL5 (by decide)⟩

/-! ## The C comment-token rewriter

    pystring::replace scans left to right, replaces each non-overlapping
    occurrence and continues after the replacement; replace2 is that scan for
    a fixed two-byte pattern (the only patterns used by the source).  The
    bytes are 47 for the slash, 42 for the star, 95 for the underscore. -/

/-- pystring::replace specialised to a two-byte pattern p1 p2 and a two-byte
    replacement q1 q2. -/
def replace2 (p1 p2 q1 q2 : Nat) : List Nat → List Nat
  | [] => []
  | [c] => [c]
  | c1 :: c2 :: r =>
    if c1 = p1 ∧ c2 = p2 then q1 :: q2 :: replace2 p1 p2 q1 q2 r
    else c1 :: replace2 p1 p2 q1 q2 (c2 :: r)

/-- First statement of replace_C_comment_tokens in src/unnamed/part_001 lines
    146-154: comment_start_old to comment_start_new, the two bytes of the
    slash-star token to slash-underscore. -/
def rep_cs (s : List Nat) : List Nat := replace2 47 42 47 95 s

/-- Second statement: comment_end_old to comment_end_new, star-slash to
    underscore-slash. -/
def rep_ce (s : List Nat) : List Nat := replace2 42 47 95 47 s

/-- Embedding of std::string replace_C_comment_tokens(const std::string&)
    from src/unnamed/part_001 lines 146-154: replace the comment-start tokens,
    then the comment-end tokens. -/
def replace_C_comment_tokens (s : List Nat) : List Nat := rep_ce (rep_cs s)

/-- The reverse mapping described by the claim: rewrite slash-underscore back
    to slash-star, then underscore-slash back to star-slash. -/
def unrep_cs (s : List Nat) : List Nat := replace2 47 95 47 42 s

/-- Second pass of the reverse mapping. -/
def unrep_ce (s : List Nat) : List Nat := replace2 95 47 42 47 s

/-- The reverse mapping of the claim as a whole. -/
def restore_C_comment_tokens (s : List Nat) : List Nat := unrep_ce (unrep_cs s)

/-- The two-byte pattern a b occurs somewhere in the string. -/
def contains2 (a b : Nat) : List Nat → Bool
  | c1 :: c2 :: r => (c1 == a && c2 == b) || contains2 a b (c2 :: r)
  | _ => false

/-! ### Rewriting lemmas for replace2 -/

lemma replace2_cons2 (p1 p2 q1 q2 c1 c2 : Nat) (r : List Nat) :
    replace2 p1 p2 q1 q2 (c1 :: c2 :: r) =
      if c1 = p1 ∧ c2 = p2 then q1 :: q2 :: replace2 p1 p2 q1 q2 r
      else c1 :: replace2 p1 p2 q1 q2 (c2 :: r) := by
  rw [replace2]

lemma replace2_cons_match (p1 p2 q1 q2 : Nat) (r : List Nat) :
    replace2 p1 p2 q1 q2 (p1 :: p2 :: r) = q1 :: q2 :: replace2 p1 p2 q1 q2 r := by
  rw [replace2_cons2, if_pos ⟨rfl, rfl⟩]

lemma replace2_cons_no (p1 p2 q1 q2 c : Nat) (t : List Nat)
    (h : ¬(c = p1 ∧ t.head? = some p2)) :
    replace2 p1 p2 q1 q2 (c :: t) = c :: replace2 p1 p2 q1 q2 t := by
  cases t with
  | nil => rfl
  | cons d r =>
    rw [replace2_cons2, if_neg]
    intro hm
    exact h ⟨hm.1, by simp [hm.2]⟩

/-- When the replacement starts with the same byte as the pattern, the head of
    the output is the head of the input. -/
lemma replace2_head_eq (p1 p2 q2 : Nat) (s : List Nat) :
    (replace2 p1 p2 p1 q2 s).head? = s.head? := by
  match s with
  | [] => rfl
  | [c] => rfl
  | c1 :: c2 :: r =>
    rw [replace2_cons2]
    by_cases h : c1 = p1 ∧ c2 = p2
    · rw [if_pos h]
      simp [h.1]
    · rw [if_neg h]
      rfl

/-- The head of a replace2 output: either the head of the input, or the head
    of the replacement when the input begins with the pattern. -/
lemma replace2_head_cases (p1 p2 q1 q2 : Nat) (s : List Nat) (c : Nat)
    (h : s.head? = some c) :
    (replace2 p1 p2 q1 q2 s).head? = some c ∨
      ((replace2 p1 p2 q1 q2 s).head? = some q1 ∧ c = p1) := by
  match s with
  | [] => simp at h
  | [d] =>
    left
    have hd : d = c := by simpa using h
    simp [replace2, hd]
  | c1 :: c2 :: r =>
    have hc : c1 = c := by simpa using h
    rw [replace2_cons2]
    by_cases hm : c1 = p1 ∧ c2 = p2
    · right
      rw [if_pos hm]
      exact ⟨rfl, by rw [← hc]; exact hm.1⟩
    · left
      rw [if_neg hm]
      simp [hc]

/-! ### contains2 lemmas -/

lemma contains2_cons2 (a b c1 c2 : Nat) (r : List Nat) :
    contains2 a b (c1 :: c2 :: r) =
      ((c1 == a && c2 == b) || contains2 a b (c2 :: r)) := by
  rw [contains2]

lemma contains2_tail (a b c1 : Nat) (t : List Nat)
    (h : contains2 a b (c1 :: t) = false) : contains2 a b t = false := by
  cases t with
  | nil => rfl
  | cons c2 r =>
    rw [contains2_cons2] at h
    exact (Bool.or_eq_false_iff.mp h).2

lemma contains2_head (a b c1 c2 : Nat) (r : List Nat)
    (h : contains2 a b (c1 :: c2 :: r) = false) : ¬(c1 = a ∧ c2 = b) := by
  rw [contains2_cons2] at h
  have h2 := (Bool.or_eq_false_iff.mp h).1
  intro he
  rw [he.1, he.2] at h2
  simp at h2

/-! ### Step lemmas for the forward rewriter -/

lemma rep_cs_head (t : List Nat) : (rep_cs t).head? = t.head? := by
  rw [rep_cs, replace2_head_eq]

lemma unrep_cs_head (t : List Nat) : (unrep_cs t).head? = t.head? := by
  rw [unrep_cs, replace2_head_eq]

/-- The head of the forward-rewritten string: the head of the input, except
    that an input beginning with the star-slash token yields an underscore. -/
lemma fwd_head_cases (t : List Nat) (c : Nat) (h : t.head? = some c) :
    (replace_C_comment_tokens t).head? = some c ∨
      ((replace_C_comment_tokens t).head? = some 95 ∧ c = 42) := by
  have h1 : (rep_cs t).head? = some c := by rw [rep_cs_head]; exact h
  rw [replace_C_comment_tokens, rep_ce]
  exact replace2_head_cases 42 47 95 47 _ c h1

lemma fwd_nil : replace_C_comment_tokens [] = [] := rfl

lemma fwd_single (c : Nat) : replace_C_comment_tokens [c] = [c] := rfl

/-- Forward step on a comment-start token. -/
lemma fwd_case_cs (r : List Nat) :
    replace_C_comment_tokens (47 :: 42 :: r) =
      47 :: 95 :: replace_C_comment_tokens r := by
  rw [replace_C_comment_tokens, replace_C_comment_tokens, rep_cs, rep_cs,
    replace2_cons_match, rep_ce, rep_ce,
    replace2_cons_no 42 47 95 47 47 _ (by simp),
    replace2_cons_no 42 47 95 47 95 _ (by simp)]

/-- Forward step on star-slash-star: the comment-start token is replaced
    first, then the leading star-slash becomes underscore-slash. -/
lemma fwd_case_ss_star (r : List Nat) :
    replace_C_comment_tokens (42 :: 47 :: 42 :: r) =
      95 :: 47 :: 95 :: replace_C_comment_tokens r := by
  rw [replace_C_comment_tokens, replace_C_comment_tokens, rep_cs, rep_cs,
    replace2_cons_no 47 42 47 95 42 _ (by simp),
    replace2_cons_match, rep_ce, rep_ce, replace2_cons_match,
    replace2_cons_no 42 47 95 47 95 _ (by simp)]

/-- Forward step on a star-slash token not followed by a star. -/
lemma fwd_case_ss (c3 : Nat) (r : List Nat) (h42 : c3 ≠ 42) :
    replace_C_comment_tokens (42 :: 47 :: c3 :: r) =
      95 :: 47 :: replace_C_comment_tokens (c3 :: r) := by
  rw [replace_C_comment_tokens, replace_C_comment_tokens, rep_cs, rep_cs,
    replace2_cons_no 47 42 47 95 42 _ (by simp),
    replace2_cons_no 47 42 47 95 47 _ (by simp [h42]),
    rep_ce, rep_ce, replace2_cons_match]

/-- Forward step on a pair that is neither comment token. -/
lemma fwd_case_other (c1 c2 : Nat) (r : List Nat) (h1 : ¬(c1 = 47 ∧ c2 = 42))
    (h2 : ¬(c1 = 42 ∧ c2 = 47)) :
    replace_C_comment_tokens (c1 :: c2 :: r) =
      c1 :: replace_C_comment_tokens (c2 :: r) := by
  have hhead : (rep_cs (c2 :: r)).head? = some c2 := by
    rw [rep_cs_head]
    rfl
  rw [replace_C_comment_tokens, replace_C_comment_tokens, rep_cs, rep_cs,
    replace2_cons_no 47 42 47 95 c1 _ (by
      intro hh
      exact h1 ⟨hh.1, by simpa using hh.2⟩)]
  rw [rep_ce, rep_ce]
  rw [replace2_cons_no 42 47 95 47 c1 _ (by
    intro hh
    apply h2
    refine ⟨hh.1, ?_⟩
    have := hh.2
    rw [show (replace2 47 42 47 95 (c2 :: r)) = rep_cs (c2 :: r) from rfl,
      hhead] at this
    simpa using this)]

/-! ### Step lemmas for the reverse rewriter -/

lemma rev_nil : restore_C_comment_tokens [] = [] := rfl

lemma rev_single (c : Nat) : restore_C_comment_tokens [c] = [c] := rfl

/-- Reverse step on a slash-underscore token. -/
lemma rev_case_su (w : List Nat) :
    restore_C_comment_tokens (47 :: 95 :: w) =
      47 :: 42 :: restore_C_comment_tokens w := by
  rw [restore_C_comment_tokens, restore_C_comment_tokens, unrep_cs, unrep_cs,
    replace2_cons_match, unrep_ce, unrep_ce,
    replace2_cons_no 95 47 42 47 47 _ (by simp),
    replace2_cons_no 95 47 42 47 42 _ (by simp)]

/-- Reverse step on underscore-slash-underscore. -/
lemma rev_case_usu (w : List Nat) :
    restore_C_comment_tokens (95 :: 47 :: 95 :: w) =
      42 :: 47 :: 42 :: restore_C_comment_tokens w := by
  rw [restore_C_comment_tokens, restore_C_comment_tokens, unrep_cs, unrep_cs,
    replace2_cons_no 47 95 47 42 95 _ (by simp),
    replace2_cons_match, unrep_ce, unrep_ce, replace2_cons_match,
    replace2_cons_no 95 47 42 47 42 _ (by simp)]

/-- Reverse step on an underscore-slash token not followed by an
    underscore-headed tail. -/
lemma rev_case_us (w : List Nat) (hw : w.head? ≠ some 95) :
    restore_C_comment_tokens (95 :: 47 :: w) =
      42 :: 47 :: restore_C_comment_tokens w := by
  rw [restore_C_comment_tokens, restore_C_comment_tokens, unrep_cs, unrep_cs,
    replace2_cons_no 47 95 47 42 95 _ (by simp),
    replace2_cons_no 47 95 47 42 47 _ (by
      intro hh
      exact hw hh.2),
    unrep_ce, unrep_ce, replace2_cons_match]

/-- Reverse step on a byte that starts neither reverse token. -/
lemma rev_case_other (c1 : Nat) (w : List Nat)
    (h47 : ¬(c1 = 47 ∧ w.head? = some 95))
    (h95 : ¬(c1 = 95 ∧ w.head? = some 47)) :
    restore_C_comment_tokens (c1 :: w) = c1 :: restore_C_comment_tokens w := by
  rw [restore_C_comment_tokens, restore_C_comment_tokens, unrep_cs, unrep_cs,
    replace2_cons_no 47 95 47 42 c1 _ h47]
  rw [unrep_ce, unrep_ce]
  rw [replace2_cons_no 95 47 42 47 c1 _ (by
    intro hh
    apply h95
    refine ⟨hh.1, ?_⟩
    have := hh.2
    rw [show (replace2 47 95 47 42 w) = unrep_cs w from rfl, unrep_cs_head]
      at this
    exact this)]

/-! ### The round-trip of the comment-token rewriter -/

lemma c6_roundtrip_aux :
    ∀ n : Nat, ∀ s : List Nat, s.length ≤ n →
      contains2 47 95 s = false → contains2 95 47 s = false →
      restore_C_comment_tokens (replace_C_comment_tokens s) = s := by
  intro n
  induction n with
  | zero =>
    intro s hlen _ _
    have hs : s = [] := List.length_eq_zero.mp (Nat.le_zero.mp hlen)
    rw [hs]
    rfl
  | succ n ih =>
    intro s hlen h47u h95s
    cases s with
    | nil => rfl
    | cons c1 t =>
      cases t with
      | nil => rw [fwd_single, rev_single]
      | cons c2 r =>
        by_cases h1 : c1 = 47 ∧ c2 = 42
        · obtain ⟨rfl, rfl⟩ := h1
          have hlen2 : r.length ≤ n := by
            simp only [List.length_cons] at hlen
            omega
          have t1 := contains2_tail 47 95 42 r (contains2_tail 47 95 47 _ h47u)
          have t2 := contains2_tail 95 47 42 r (contains2_tail 95 47 47 _ h95s)
          rw [fwd_case_cs, rev_case_su, ih r hlen2 t1 t2]
        · by_cases h2 : c1 = 42 ∧ c2 = 47
          · obtain ⟨rfl, rfl⟩ := h2
            cases r with
            | nil => decide
            | cons c3 r2 =>
              by_cases h3 : c3 = 42
              · subst h3
                have hlen2 : r2.length ≤ n := by
                  simp only [List.length_cons] at hlen
                  omega
                have t1 := contains2_tail 47 95 42 r2
                  (contains2_tail 47 95 47 _ (contains2_tail 47 95 42 _ h47u))
                have t2 := contains2_tail 95 47 42 r2
                  (contains2_tail 95 47 47 _ (contains2_tail 95 47 42 _ h95s))
                rw [fwd_case_ss_star, rev_case_usu, ih r2 hlen2 t1 t2]
              · have hc3 : ¬(47 = 47 ∧ c3 = 95) :=
                  contains2_head 47 95 47 c3 r2 (contains2_tail 47 95 42 _ h47u)
                have hc395 : c3 ≠ 95 := by
                  intro he
                  exact hc3 ⟨rfl, he⟩
                have hlen2 : (c3 :: r2).length ≤ n := by
                  simp only [List.length_cons] at hlen ⊢
                  omega
                have t1 := contains2_tail 47 95 47 _ (contains2_tail 47 95 42 _ h47u)
                have t2 := contains2_tail 95 47 47 _ (contains2_tail 95 47 42 _ h95s)
                have hW : (replace_C_comment_tokens (c3 :: r2)).head? = some c3 := by
                  rcases fwd_head_cases (c3 :: r2) c3 rfl with h | ⟨_, h42⟩
                  · exact h
                  · exact absurd h42 h3
                rw [fwd_case_ss c3 r2 h3,
                  rev_case_us _ (by rw [hW]; simp [hc395]),
                  ih (c3 :: r2) hlen2 t1 t2]
          · have hA : ¬(c1 = 47 ∧ c2 = 95) := contains2_head 47 95 c1 c2 r h47u
            have hB : ¬(c1 = 95 ∧ c2 = 47) := contains2_head 95 47 c1 c2 r h95s
            have hlen2 : (c2 :: r).length ≤ n := by
              simp only [List.length_cons] at hlen ⊢
              omega
            have t1 := contains2_tail 47 95 c1 _ h47u
            have t2 := contains2_tail 95 47 c1 _ h95s
            rw [fwd_case_other c1 c2 r h1 h2]
            rcases fwd_head_cases (c2 :: r) c2 rfl with hW | ⟨hW, h42⟩
            · have hcond47 : ¬(c1 = 47 ∧
                  (replace_C_comment_tokens (c2 :: r)).head? = some 95) := by
                intro he
                rw [hW] at he
                exact hA ⟨he.1, by simpa using he.2⟩
              have hcond95 : ¬(c1 = 95 ∧
                  (replace_C_comment_tokens (c2 :: r)).head? = some 47) := by
                intro he
                rw [hW] at he
                exact hB ⟨he.1, by simpa using he.2⟩
              rw [rev_case_other c1 _ hcond47 hcond95, ih (c2 :: r) hlen2 t1 t2]
            · have hcond47 : ¬(c1 = 47 ∧
                  (replace_C_comment_tokens (c2 :: r)).head? = some 95) := by
                intro he
                exact h1 ⟨he.1, h42⟩
              have hcond95 : ¬(c1 = 95 ∧
                  (replace_C_comment_tokens (c2 :: r)).head? = some 47) := by
                intro he
                rw [hW] at he
                have := he.2
                simp at this
              rw [rev_case_other c1 _ hcond47 hcond95, ih (c2 :: r) hlen2 t1 t2]

/-- C6 counterexample: the claim fails for the string holding the single
    slash-underscore digraph.  The forward rewriter leaves it unchanged (it
    holds no comment token), but the reverse mapping rewrites it to
    slash-star, so the round trip does not give the input back. -/
theorem c6_counterexample :
    replace_C_comment_tokens [47, 95] = [47, 95] ∧
    restore_C_comment_tokens (replace_C_comment_tokens [47, 95]) = [47, 42] ∧
    restore_C_comment_tokens (replace_C_comment_tokens [47, 95]) ≠ [47, 95] := by
  refine ⟨rfl, rfl, ?_⟩
  decide

/-- C6 as amended: for every byte string that holds neither the
    slash-underscore digraph nor the underscore-slash digraph, applying
    replace_C_comment_tokens and then the reverse mapping yields the string
    again. -/
theorem c6_comment_roundtrip (s : List Nat)
    (h1 : contains2 47 95 s = false) (h2 : contains2 95 47 s = false) :
    restore_C_comment_tokens (replace_C_comment_tokens s) = s :=
  c6_roundtrip_aux s.length s le_rfl h1 h2

/-- Witness for C6 at the byte string of one full C comment, slash star star
    slash. -/
theorem c6_comment_roundtrip_witness :
    contains2 47 95 [47, 42, 42, 47] = false ∧
    contains2 95 47 [47, 42, 42, 47] = false ∧
    restore_C_comment_tokens (replace_C_comment_tokens [47, 42, 42, 47]) =
      [47, 42, 42, 47] :=
  ⟨by decide, by decide, c6_comment_roundtrip [47, 42, 42, 47] (by decide) (by decide)⟩
